import Mathlib

/-!
# Verification of the macOS scanner parsers (`scanner/macos.go`)

Shallow embedding of the two pure parsing functions of the repository's
macOS scanner:

* `parseSWVers`            (version-report parser, `macos.go` lines 50-85)
* `parseInstalledPackages` (inventory parser, `macos.go` lines 174-223)

Strings are modelled at the character level (`List Char` under Lean's
`String`); byte-level UTF-8 details do not matter for any property below.
The Go `bufio.Scanner` with the default `ScanLines` split function is
modelled by `splitLines`; since both parsers read from an in-memory
`strings.Reader`, the scanner's I/O error branch (`scanner.Err()`) is
unreachable and is not modelled.
-/

namespace MacOSScanner

/-- Go `unicode.IsSpace` (the set relevant for `strings.TrimSpace`):
space, tab, newline, vertical tab, form feed, carriage return, NEL, NBSP. -/
def isGoSpace (c : Char) : Bool :=
  c = ' ' || c = '\t' || c = '\n' || c = '\x0B' || c = '\x0C' || c = '\r' ||
  c = '\u0085' || c = ' '

/-- Go `strings.TrimSpace`: remove leading and trailing whitespace. -/
def trimSpace (s : String) : String :=
  String.mk (((s.data.dropWhile isGoSpace).reverse.dropWhile isGoSpace).reverse)

/-- Go `strings.HasPrefix`. -/
def hasPrefix (s pre : String) : Bool :=
  List.isPrefixOf pre.data s.data

/-- Go `strings.HasSuffix`. -/
def hasSuffix (s suf : String) : Bool :=
  List.isPrefixOf suf.data.reverse s.data.reverse

/-- Go `strings.TrimPrefix`. -/
def trimPrefix (s pre : String) : String :=
  if hasPrefix s pre then String.mk (s.data.drop pre.data.length) else s

/-- Go `strings.TrimSuffix`. -/
def trimSuffix (s suf : String) : String :=
  if hasSuffix s suf then String.mk (s.data.take (s.data.length - suf.data.length)) else s

/-- `bufio.ScanLines` drops one trailing carriage return from each line.
The accumulator holds the current line reversed, so the potential `\r` is
at its head. -/
def dropCRrev (acc : List Char) : List Char :=
  match acc with
  | '\r' :: rest => rest
  | _ => acc

/-- Worker for `splitLines`: first argument is remaining input, second is
the current (reversed) line. At end of input a final token is emitted only
if data is pending, exactly as `bufio.Scanner` does. -/
def linesAux : List Char → List Char → List String
  | [], [] => []
  | [], acc => [String.mk (dropCRrev acc).reverse]
  | c :: cs, acc =>
    if c = '\n' then String.mk (dropCRrev acc).reverse :: linesAux cs []
    else linesAux cs (c :: acc)

/-- The line sequence produced by `bufio.Scanner` (default `ScanLines`)
over an in-memory string: split at `\n`, strip one trailing `\r` per line,
no empty final token after a terminating newline. -/
def splitLines (s : String) : List String :=
  linesAux s.data []

/-- Go `strings.Cut(t, ":")` on the character list: split around the first
colon; `none` when no colon occurs. -/
def cutList : List Char → Option (List Char × List Char)
  | [] => none
  | c :: rest =>
    if c = ':' then some ([], rest)
    else (cutList rest).map fun p => (c :: p.1, p.2)

/-- Go `strings.Cut(t, ":")`: `some (before, after)` iff `t` contains a
colon (Go's `ok` flag). -/
def cut (t : String) : Option (String × String) :=
  (cutList t.data).map fun p => (String.mk p.1, String.mk p.2)

/-- Go `filepath.Base` (Unix separator): empty path gives `"."`, a path of
only slashes gives `"/"`, otherwise the last path segment after stripping
trailing slashes. -/
def filepathBase (p : String) : String :=
  if p = "" then "."
  else
    let r := p.data.reverse.dropWhile (fun c => c = '/')
    if r = [] then "/"
    else String.mk ((r.takeWhile (fun c => decide (c ≠ '/'))).reverse)

/-! ## Version-report parser (`parseSWVers`) -/

/-- The OS family identifier. Modelled from the spec: the repository's
`constant` package (`constant.MacOSX`, `constant.MacOSXServer`,
`constant.MacOS`, `constant.MacOSServer`) is not under `src/`; the spec's
`OSIdentity.family` enum `{ClassicMacOS, ClassicMacOSServer, ModernMacOS,
ModernMacOSServer}` is used in its place, one variant per constant. -/
inductive OSFamily where
  | classicMacOS
  | classicMacOSServer
  | modernMacOS
  | modernMacOSServer
  deriving DecidableEq, Repr

/-- Structured failures of `parseSWVers` (`xerrors.Errorf` calls at
`macos.go:77` and `macos.go:81`). -/
inductive SWVersError where
  | unrecognizedProductName (name : String)
  | missingProductVersion
  deriving DecidableEq, Repr

/-- The error message text built by `parseSWVers` (`macos.go:77,81`). -/
def swVersErrMsg : SWVersError → String
  | .unrecognizedProductName n =>
    "Failed to detect MacOS Family. err: \"" ++ n ++ "\" is unexpected product name"
  | .missingProductVersion =>
    "Failed to get ProductVersion string. err: ProductVersion is empty"

/-- One iteration of the scan loop of `parseSWVers` (`macos.go:53-61`):
keep the trimmed value of the last `ProductName:`- respectively
`ProductVersion:`-prefixed line, ignore every other line. -/
def swVersStep (nv : String × String) (t : String) : String × String :=
  if hasPrefix t "ProductName:" then (trimSpace (trimPrefix t "ProductName:"), nv.2)
  else if hasPrefix t "ProductVersion:" then (nv.1, trimSpace (trimPrefix t "ProductVersion:"))
  else nv

/-- The full scan of `parseSWVers` over all lines: the (name, version)
pair left after the loop, both initially empty. -/
def swVersScan (stdout : String) : String × String :=
  (splitLines stdout).foldl swVersStep ("", "")

/-- The product-name switch of `parseSWVers` (`macos.go:67-78`). -/
def familyOf? (name : String) : Option OSFamily :=
  if name = "Mac OS X" then some .classicMacOS
  else if name = "Mac OS X Server" then some .classicMacOSServer
  else if name = "macOS" then some .modernMacOS
  else if name = "macOS Server" then some .modernMacOSServer
  else none

/-- `parseSWVers` (`macos.go:50-85`): scan all lines, then validate the
product name (unrecognized names fail first) and then the version
(empty fails). -/
def parseSWVers (stdout : String) : Except SWVersError (OSFamily × String) :=
  match familyOf? (swVersScan stdout).1 with
  | none => .error (.unrecognizedProductName (swVersScan stdout).1)
  | some fam =>
    if (swVersScan stdout).2 = "" then .error .missingProductVersion
    else .ok (fam, (swVersScan stdout).2)

/-! ## Inventory parser (`parseInstalledPackages`) -/

/-- Structured failures of `parseInstalledPackages` (`macos.go:195,207`). -/
inductive PkgError where
  | unexpectedLineFormat (line : String)
  | unexpectedTag (tag : String)
  deriving DecidableEq, Repr

/-- The error message text built by `parseInstalledPackages`
(`macos.go:195,207`). -/
def pkgErrMsg : PkgError → String
  | .unexpectedLineFormat t =>
    "unexpected installed packages line. expected: \"<TAG>: <VALUE>\", actual: \"" ++ t ++ "\""
  | .unexpectedTag l =>
    "unexpected installed packages line tag. expected: [\"Info.plist\", \"CFBundleShortVersionString\"], actual: \"" ++ l ++ "\""

/-- The suffix `strings.HasSuffix` is checked against at `macos.go:203`. -/
def errSentinelSuffix : String :=
  "error: No value at that key path or invalid key path: CFBundleShortVersionString"

/-- The full diagnostic sentinel named by the spec (§6): the trailing text
`plutil` emits when the version key is absent. -/
def specSentinelSuffix : String :=
  "Could not extract value, error: No value at that key path or invalid key path: CFBundleShortVersionString"

/-- Value stored for a `CFBundleShortVersionString` line (`macos.go:202-205`):
the trimmed right-hand side, normalized to `""` when it ends with the
error sentinel. -/
def normVer (rhs : String) : String :=
  let v := trimSpace rhs
  if hasSuffix v errSentinelSuffix then "" else v

/-- Name derivation (`macos.go:183,212`):
`filepath.Base(strings.TrimSuffix(p, ".app/Contents/Info.plist"))`. -/
def deriveName (p : String) : String :=
  filepathBase (trimSuffix p ".app/Contents/Info.plist")

/-- Name derivation in the order the spec's words state it (§4.2: "take
the final path segment, strip a fixed trailing suffix"): final segment
first, then suffix strip. Stated only to be compared with `deriveName`,
which follows the code. -/
def deriveNameSegmentThenStrip (p : String) : String :=
  trimSuffix (filepathBase p) ".app/Contents/Info.plist"

/-- The inventory (`models.Packages`, a map from name to package record
whose `Name` field always equals its key) modelled as an association list
with unique keys: each entry is (name, version). -/
abbrev Packages := List (String × String)

/-- Go map assignment `pkgs[n] = v`: replace the entry with key `n` if it
exists, otherwise add one. -/
def insertPkg : Packages → String → String → Packages
  | [], n, v => [(n, v)]
  | (k, w) :: rest, n, v =>
    if k = n then (n, v) :: rest else (k, w) :: insertPkg rest n v

/-- Record finalization (`macos.go:182-188` and `macos.go:211-217`): if a
path is pending, insert the record under its derived name. -/
def finalizeInto (pkgs : Packages) (p v : String) : Packages :=
  if p = "" then pkgs else insertPkg pkgs (deriveName p) v

/-- Parser state inside the loop of `parseInstalledPackages`: the
inventory built so far and the pending path `p` and version `v`. -/
structure InvState where
  pkgs : Packages
  p : String
  v : String
  deriving DecidableEq, Repr

/-- One iteration of the loop of `parseInstalledPackages`
(`macos.go:179-210`): blank line finalizes and resets; otherwise split at
the first colon (no colon is an error), then dispatch on the tag
(`Info.plist` sets the pending path, `CFBundleShortVersionString` sets
the pending version, anything else is an error). -/
def goStep (st : InvState) (t : String) : Except PkgError InvState :=
  if t = "" then
    .ok ⟨finalizeInto st.pkgs st.p st.v, "", ""⟩
  else
    match cut t with
    | none => .error (.unexpectedLineFormat t)
    | some (lhs, rhs) =>
      if lhs = "Info.plist" then .ok ⟨st.pkgs, trimSpace rhs, st.v⟩
      else if lhs = "CFBundleShortVersionString" then .ok ⟨st.pkgs, st.p, normVer rhs⟩
      else .error (.unexpectedTag lhs)

/-- The loop of `parseInstalledPackages` over a list of lines, threading
the state and stopping at the first error. -/
def runLines (st : InvState) : List String → Except PkgError InvState
  | [] => .ok st
  | t :: ts =>
    match goStep st t with
    | .error e => .error e
    | .ok st' => runLines st' ts

/-- `parseInstalledPackages` on an already-split line sequence: run the
loop from the empty state, then finalize any still-pending record
(`macos.go:211-217`). The second component models the always-`nil`
`models.SrcPackages` result. -/
def parseLines (ls : List String) : Except PkgError (Packages × List (String × String)) :=
  match runLines ⟨[], "", ""⟩ ls with
  | .error e => .error e
  | .ok st => .ok (finalizeInto st.pkgs st.p st.v, [])

/-- `parseInstalledPackages` (`macos.go:174-223`). -/
def parseInstalledPackages (stdout : String) :
    Except PkgError (Packages × List (String × String)) :=
  parseLines (splitLines stdout)

/-- A line the inventory loop accepts: blank, or colon-separated with one
of the two permitted tags. -/
def goodLine (t : String) : Bool :=
  t = "" ||
    match cut t with
    | none => false
    | some (lhs, _) => lhs = "Info.plist" || lhs = "CFBundleShortVersionString"

/-- The error `parseInstalledPackages` raises at a rejected line. -/
def errFor (t : String) : PkgError :=
  match cut t with
  | none => .unexpectedLineFormat t
  | some (lhs, _) => .unexpectedTag lhs

end MacOSScanner

namespace MacOSScanner

/-! ## Helper lemmas -/

theorem mk_data (s : String) : String.mk s.data = s := rfl

theorem cutList_append_colon (l r : List Char) (h : ':' ∉ l) :
    cutList (l ++ ':' :: r) = some (l, r) := by
  induction l with
  | nil => simp [cutList]
  | cons c cs ih =>
    have hc : ¬(c = ':') := by
      intro e
      exact h (e ▸ List.mem_cons_self c cs)
    have hcs : ':' ∉ cs := fun m => h (List.mem_cons_of_mem c m)
    simp [cutList, hc, ih hcs]

theorem cut_append (l r : String) (h : ':' ∉ l.data) :
    cut (l ++ ":" ++ r) = some (l, r) := by
  have hd : (l ++ ":" ++ r).data = l.data ++ ':' :: r.data := by
    simp [String.data_append]
  simp [cut, hd, cutList_append_colon _ _ h, mk_data]

theorem colon_line_ne_empty (l r : String) : l ++ ":" ++ r ≠ "" := by
  intro h
  have hd := congrArg String.data h
  simp [String.data_append] at hd

theorem infoLine_eq (r : String) :
    ("Info.plist:" ++ r : String) = "Info.plist" ++ ":" ++ r := by
  rw [show ("Info.plist" ++ ":" : String) = "Info.plist:" from by decide]

theorem cfbLine_eq (r : String) :
    ("CFBundleShortVersionString:" ++ r : String) =
      "CFBundleShortVersionString" ++ ":" ++ r := by
  rw [show ("CFBundleShortVersionString" ++ ":" : String) =
    "CFBundleShortVersionString:" from by decide]

theorem goStep_blank (st : InvState) :
    goStep st "" = .ok ⟨finalizeInto st.pkgs st.p st.v, "", ""⟩ := rfl

theorem goStep_info (st : InvState) (r : String) :
    goStep st ("Info.plist:" ++ r) = .ok ⟨st.pkgs, trimSpace r, st.v⟩ := by
  rw [infoLine_eq]
  unfold goStep
  rw [if_neg (colon_line_ne_empty _ _), cut_append _ _ (by decide)]
  simp

theorem goStep_cfb (st : InvState) (r : String) :
    goStep st ("CFBundleShortVersionString:" ++ r) = .ok ⟨st.pkgs, st.p, normVer r⟩ := by
  rw [cfbLine_eq]
  unfold goStep
  rw [if_neg (colon_line_ne_empty _ _), cut_append _ _ (by decide)]
  simp

theorem dropWhile_head_false {q : Char → Bool} :
    ∀ (l : List Char) (c : Char) (cs : List Char), l.dropWhile q = c :: cs → q c = false := by
  intro l
  induction l with
  | nil => intro c cs h; simp [List.dropWhile] at h
  | cons a as ih =>
    intro c cs h
    by_cases ha : q a = true
    · rw [List.dropWhile_cons_of_pos ha] at h
      exact ih _ _ h
    · rw [List.dropWhile_cons_of_neg ha] at h
      cases h
      simpa using ha

theorem filepathBase_ne_empty (p : String) : filepathBase p ≠ "" := by
  unfold filepathBase
  by_cases h1 : p = ""
  · simp [h1]
  · rw [if_neg h1]
    by_cases h2 : p.data.reverse.dropWhile (fun c => c = '/') = []
    · rw [if_pos h2]
      decide
    · rw [if_neg h2]
      cases e : p.data.reverse.dropWhile (fun c => c = '/') with
      | nil => exact absurd e h2
      | cons c cs =>
        have hc : (fun c => decide (c = '/')) c = false := dropWhile_head_false _ _ _ e
        have hc2 : ¬(c = '/') := by simpa using hc
        intro habs
        have hd := congrArg String.data habs
        simp [List.takeWhile_cons, hc2] at hd

theorem deriveName_ne_empty (p : String) : deriveName p ≠ "" :=
  filepathBase_ne_empty _

end MacOSScanner

namespace MacOSScanner

theorem goStep_good (st : InvState) (t : String) (h : goodLine t = true) :
    ∃ st', goStep st t = .ok st' := by
  by_cases ht : t = ""
  · exact ⟨_, ht ▸ goStep_blank st⟩
  · cases hc : cut t with
    | none => simp [goodLine, ht, hc] at h
    | some pr =>
      obtain ⟨lhs, rhs⟩ := pr
      simp [goodLine, ht, hc] at h
      unfold goStep
      rw [if_neg ht, hc]
      rcases h with h | h
      · exact ⟨⟨st.pkgs, trimSpace rhs, st.v⟩, by simp [h]⟩
      · by_cases h1 : lhs = "Info.plist"
        · exact ⟨⟨st.pkgs, trimSpace rhs, st.v⟩, by simp [h1]⟩
        · exact ⟨⟨st.pkgs, st.p, normVer rhs⟩, by simp [h1, h]⟩

theorem goStep_bad (st : InvState) (t : String) (h : goodLine t = false) :
    goStep st t = .error (errFor t) := by
  have ht : ¬(t = "") := by
    intro e
    simp [goodLine, e] at h
  cases hc : cut t with
  | none =>
    unfold goStep errFor
    rw [if_neg ht, hc]
  | some pr =>
    obtain ⟨lhs, rhs⟩ := pr
    simp [goodLine, ht, hc] at h
    unfold goStep errFor
    rw [if_neg ht, hc]
    simp [h.1, h.2]

theorem runLines_append (as bs : List String) : ∀ st : InvState,
    runLines st (as ++ bs) =
      match runLines st as with
      | .ok st' => runLines st' bs
      | .error e => .error e := by
  induction as with
  | nil => intro st; simp [runLines]
  | cons t ts ih =>
    intro st
    simp only [List.cons_append, runLines]
    cases hg : goStep st t with
    | error e => rfl
    | ok st1 => exact ih st1

theorem runLines_all_good (ls : List String) : ∀ st : InvState,
    (∀ l ∈ ls, goodLine l = true) → ∃ st', runLines st ls = .ok st' := by
  induction ls with
  | nil => intro st _; exact ⟨st, rfl⟩
  | cons t ts ih =>
    intro st h
    obtain ⟨st1, h1⟩ := goStep_good st t (h t (List.mem_cons_self t ts))
    obtain ⟨st2, h2⟩ := ih st1 (fun l hl => h l (List.mem_cons_of_mem t hl))
    exact ⟨st2, by simp [runLines, h1, h2]⟩

theorem runLines_first_bad (pre : List String) (t : String) (rest : List String) :
    ∀ st : InvState, (∀ l ∈ pre, goodLine l = true) → goodLine t = false →
      runLines st (pre ++ t :: rest) = .error (errFor t) := by
  induction pre with
  | nil =>
    intro st _ ht
    simp [runLines, goStep_bad st t ht]
  | cons a as ih =>
    intro st hpre ht
    obtain ⟨st1, h1⟩ := goStep_good st a (hpre a (List.mem_cons_self a as))
    simp only [List.cons_append, runLines, h1]
    exact ih st1 (fun l hl => hpre l (List.mem_cons_of_mem a hl)) ht

theorem keys_insertPkg (n v : String) : ∀ pkgs : Packages,
    (insertPkg pkgs n v).map Prod.fst =
      if n ∈ pkgs.map Prod.fst then pkgs.map Prod.fst
      else pkgs.map Prod.fst ++ [n] := by
  intro pkgs
  induction pkgs with
  | nil => simp [insertPkg]
  | cons hd tl ih =>
    obtain ⟨k, w⟩ := hd
    by_cases hk : k = n
    · simp [insertPkg, hk]
    · have hnk : ¬(n = k) := fun e => hk e.symm
      by_cases hmem : n ∈ tl.map Prod.fst
      · simp [insertPkg, hk, hmem, hnk, ih]
      · simp [insertPkg, hk, hmem, hnk, ih]

theorem insertPkg_keys_nodup (pkgs : Packages) (n v : String)
    (h : (pkgs.map Prod.fst).Nodup) : ((insertPkg pkgs n v).map Prod.fst).Nodup := by
  rw [keys_insertPkg]
  by_cases hmem : n ∈ pkgs.map Prod.fst
  · simpa [hmem] using h
  · simp [hmem, List.nodup_append, h]

theorem finalizeInto_keys_nodup (pkgs : Packages) (p v : String)
    (h : (pkgs.map Prod.fst).Nodup) : ((finalizeInto pkgs p v).map Prod.fst).Nodup := by
  unfold finalizeInto
  by_cases hp : p = ""
  · simpa [hp] using h
  · rw [if_neg hp]
    exact insertPkg_keys_nodup _ _ _ h

theorem goStep_ok_pkgs (st st' : InvState) (t : String) (h : goStep st t = .ok st') :
    st'.pkgs = st.pkgs ∨ st'.pkgs = finalizeInto st.pkgs st.p st.v := by
  unfold goStep at h
  split at h
  · cases h
    right
    rfl
  · split at h
    · cases h
    · split at h
      · cases h
        left
        rfl
      · split at h
        · cases h
          left
          rfl
        · cases h

theorem goStep_keys_nodup (st st' : InvState) (t : String)
    (h : goStep st t = .ok st') (hnd : (st.pkgs.map Prod.fst).Nodup) :
    (st'.pkgs.map Prod.fst).Nodup := by
  rcases goStep_ok_pkgs st st' t h with e | e
  · rw [e]
    exact hnd
  · rw [e]
    exact finalizeInto_keys_nodup _ _ _ hnd

theorem runLines_keys_nodup (ls : List String) : ∀ st st' : InvState,
    runLines st ls = .ok st' → (st.pkgs.map Prod.fst).Nodup →
    (st'.pkgs.map Prod.fst).Nodup := by
  induction ls with
  | nil =>
    intro st st' h hnd
    cases h
    exact hnd
  | cons t ts ih =>
    intro st st' h hnd
    unfold runLines at h
    cases hg : goStep st t with
    | error e => rw [hg] at h; cases h
    | ok st1 =>
      rw [hg] at h
      exact ih st1 st' h (goStep_keys_nodup st st1 t hg hnd)

theorem hasSuffix_spec_sentinel (v : String)
    (h : hasSuffix v specSentinelSuffix = true) : hasSuffix v errSentinelSuffix = true := by
  unfold hasSuffix at h ⊢
  rw [List.isPrefixOf_iff_prefix] at h ⊢
  exact List.IsPrefix.trans
    (List.isPrefixOf_iff_prefix.mp
      (by decide : List.isPrefixOf errSentinelSuffix.data.reverse
        specSentinelSuffix.data.reverse = true)) h

theorem normVer_sentinel (r : String)
    (h : hasSuffix (trimSpace r) specSentinelSuffix = true) : normVer r = "" := by
  unfold normVer
  simp [hasSuffix_spec_sentinel _ h]

end MacOSScanner

namespace MacOSScanner

/-- C1: for every input text whose last `ProductName` line carries one of
the four recognized literals (so that the scan's final name is that
literal), and whose trimmed product-version value is non-empty,
`parseSWVers` succeeds and returns exactly the mapped family —
"Mac OS X" ↦ ClassicMacOS, "Mac OS X Server" ↦ ClassicMacOSServer,
"macOS" ↦ ModernMacOS, "macOS Server" ↦ ModernMacOSServer — together with
the whitespace-trimmed product-version value. -/
theorem parseSWVers_recognized_families (s : String)
    (hv : (swVersScan s).2 ≠ "") :
    ((swVersScan s).1 = "Mac OS X" →
      parseSWVers s = .ok (OSFamily.classicMacOS, (swVersScan s).2)) ∧
    ((swVersScan s).1 = "Mac OS X Server" →
      parseSWVers s = .ok (OSFamily.classicMacOSServer, (swVersScan s).2)) ∧
    ((swVersScan s).1 = "macOS" →
      parseSWVers s = .ok (OSFamily.modernMacOS, (swVersScan s).2)) ∧
    ((swVersScan s).1 = "macOS Server" →
      parseSWVers s = .ok (OSFamily.modernMacOSServer, (swVersScan s).2)) := by
  refine ⟨fun h => ?_, fun h => ?_, fun h => ?_, fun h => ?_⟩ <;>
    simp [parseSWVers, familyOf?, h, hv]

/-- Witness for C1: the modern-macOS report from the repository's own test
data parses to (ModernMacOS, "13.4.1"). -/
theorem parseSWVers_recognized_families_witness :
    parseSWVers "ProductName:\t\tmacOS\nProductVersion:\t\t13.4.1\nBuildVersion:\t\t22F82" =
      .ok (OSFamily.modernMacOS, "13.4.1") := by
  have h := (parseSWVers_recognized_families
    "ProductName:\t\tmacOS\nProductVersion:\t\t13.4.1\nBuildVersion:\t\t22F82"
    (by decide)).2.2.1 (by decide)
  rw [show (swVersScan
    "ProductName:\t\tmacOS\nProductVersion:\t\t13.4.1\nBuildVersion:\t\t22F82").2 =
    "13.4.1" from by decide] at h
  exact h

/-- C6: whenever the scanned product name is none of the four known
literals (for instance the near-miss "MacOS"), `parseSWVers` fails with
the unrecognized-product-name error, and the corresponding error message
includes the offending literal value. -/
theorem parseSWVers_unrecognized_name (s : String)
    (h1 : (swVersScan s).1 ≠ "Mac OS X")
    (h2 : (swVersScan s).1 ≠ "Mac OS X Server")
    (h3 : (swVersScan s).1 ≠ "macOS")
    (h4 : (swVersScan s).1 ≠ "macOS Server") :
    parseSWVers s = .error (.unrecognizedProductName (swVersScan s).1) ∧
    ∃ a b, swVersErrMsg (SWVersError.unrecognizedProductName (swVersScan s).1) =
      a ++ (swVersScan s).1 ++ b := by
  constructor
  · simp [parseSWVers, familyOf?, h1, h2, h3, h4]
  · exact ⟨"Failed to detect MacOS Family. err: \"",
      "\" is unexpected product name", rfl⟩

/-- Witness for C6: the "MacOS" near-miss report from the repository's own
test data fails with the unrecognized-product-name error carrying "MacOS". -/
theorem parseSWVers_unrecognized_name_witness :
    parseSWVers "ProductName:\t\tMacOS\nProductVersion:\t\t13.4.1\nBuildVersion:\t\t22F82" =
      .error (.unrecognizedProductName "MacOS") := by
  have h := (parseSWVers_unrecognized_name
    "ProductName:\t\tMacOS\nProductVersion:\t\t13.4.1\nBuildVersion:\t\t22F82"
    (by decide) (by decide) (by decide) (by decide)).1
  rw [show (swVersScan
    "ProductName:\t\tMacOS\nProductVersion:\t\t13.4.1\nBuildVersion:\t\t22F82").1 =
    "MacOS" from by decide] at h
  exact h

/-- C7: with a recognized product name but an empty (after trimming)
product version, `parseSWVers` fails with the missing-product-version
error; that error is distinct from every unrecognized-product-name error;
and the name check runs first: an unrecognized name yields the name error
regardless of the version. -/
theorem parseSWVers_missing_version (s : String) (fam : OSFamily)
    (hf : familyOf? (swVersScan s).1 = some fam)
    (hv : (swVersScan s).2 = "") :
    parseSWVers s = .error SWVersError.missingProductVersion ∧
    (∀ n, SWVersError.missingProductVersion ≠ SWVersError.unrecognizedProductName n) ∧
    (∀ s', familyOf? (swVersScan s').1 = none →
      parseSWVers s' = .error (.unrecognizedProductName (swVersScan s').1)) := by
  refine ⟨?_, ?_, ?_⟩
  · simp [parseSWVers, hf, hv]
  · intro n h
    cases h
  · intro s' h
    simp [parseSWVers, h]

/-- Witness for C7: the whitespace-only-version report from the
repository's own test data fails with the missing-product-version error. -/
theorem parseSWVers_missing_version_witness :
    parseSWVers "ProductName:\t\tmacOS\nProductVersion:\t\t\nBuildVersion:\t\t22F82" =
      .error SWVersError.missingProductVersion :=
  (parseSWVers_missing_version
    "ProductName:\t\tmacOS\nProductVersion:\t\t\nBuildVersion:\t\t22F82"
    OSFamily.modernMacOS (by decide) (by decide)).1

end MacOSScanner

namespace MacOSScanner

/-- C2: a record whose version line's trimmed value ends with the full
diagnostic sentinel "Could not extract value, error: No value at that key
path or invalid key path: CFBundleShortVersionString" parses without
error into a record whose version is the empty string and whose derived
name is non-empty. -/
theorem parseLines_sentinel_version (p r : String)
    (hp : trimSpace p ≠ "")
    (hs : hasSuffix (trimSpace r) specSentinelSuffix = true) :
    parseLines ["Info.plist:" ++ p, "CFBundleShortVersionString:" ++ r] =
      .ok ([(deriveName (trimSpace p), "")], []) ∧
    deriveName (trimSpace p) ≠ "" := by
  constructor
  · have e1 := goStep_info ⟨[], "", ""⟩ p
    have e2 := goStep_cfb ⟨[], trimSpace p, ""⟩ r
    simp [parseLines, runLines, e1, e2, normVer_sentinel r hs, finalizeInto, hp, insertPkg]
  · exact deriveName_ne_empty _

/-- Witness for C2: the Contacts block from the repository's own test data
yields the record ("Contacts", ""). -/
theorem parseLines_sentinel_version_witness :
    parseLines ["Info.plist:" ++ " /System/Applications/Contacts.app/Contents/Info.plist",
      "CFBundleShortVersionString:" ++ " /System/Applications/Contacts.app/Contents/Info.plist: Could not extract value, error: No value at that key path or invalid key path: CFBundleShortVersionString\t"] =
      .ok ([("Contacts", "")], []) := by
  have h := (parseLines_sentinel_version
    " /System/Applications/Contacts.app/Contents/Info.plist"
    " /System/Applications/Contacts.app/Contents/Info.plist: Could not extract value, error: No value at that key path or invalid key path: CFBundleShortVersionString\t"
    (by decide) (by decide)).1
  rw [show deriveName
    (trimSpace " /System/Applications/Contacts.app/Contents/Info.plist") =
    "Contacts" from by decide] at h
  exact h

/-- C3 counterexample: deriving the name in the order the claim's words
state — final path segment first, then suffix strip — yields "Info.plist"
on the claim's own example path, while the parser actually produces the
record name "Visual Studio Code" there. -/
theorem deriveName_segment_first_counterexample :
    deriveNameSegmentThenStrip
      "/Applications/Visual Studio Code.app/Contents/Info.plist" = "Info.plist" ∧
    parseLines ["Info.plist: /Applications/Visual Studio Code.app/Contents/Info.plist"] =
      .ok ([("Visual Studio Code", "")], []) ∧
    ("Info.plist" : String) ≠ "Visual Studio Code" :=
  ⟨by decide, rfl, by decide⟩

/-- C3 (amended): the package name is derived from the pending path by
first stripping the fixed trailing suffix ".app/Contents/Info.plist" and
then taking the final path segment of the remainder; in particular the
path /Applications/Visual Studio Code.app/Contents/Info.plist yields the
name "Visual Studio Code". -/
theorem deriveName_strip_then_segment :
    (∀ p, deriveName p = filepathBase (trimSuffix p ".app/Contents/Info.plist")) ∧
    deriveName "/Applications/Visual Studio Code.app/Contents/Info.plist" =
      "Visual Studio Code" ∧
    parseLines ["Info.plist: /Applications/Visual Studio Code.app/Contents/Info.plist",
      "CFBundleShortVersionString: 1.80.1"] =
      .ok ([("Visual Studio Code", "1.80.1")], []) :=
  ⟨fun _ => rfl, by decide, rfl⟩

/-- C4: as soon as the loop meets a non-blank line without a colon, or a
colon line whose tag is neither "Info.plist" nor
"CFBundleShortVersionString" (every earlier line being accepted), the
whole parse fails with the corresponding error — unexpected-line-format
for the colonless line, unexpected-tag for the bad tag — and returns no
inventory; the unexpected-tag message names the offending tag and both
permitted tags. -/
theorem parseLines_rejects_bad_line (pre : List String) (t : String) (rest : List String)
    (hpre : ∀ l ∈ pre, goodLine l = true)
    (ht : goodLine t = false) :
    parseLines (pre ++ t :: rest) = .error (errFor t) ∧
    (cut t = none → errFor t = PkgError.unexpectedLineFormat t) ∧
    (∀ lhs rhs, cut t = some (lhs, rhs) → errFor t = PkgError.unexpectedTag lhs) ∧
    (∀ lhs, ∃ a b, pkgErrMsg (PkgError.unexpectedTag lhs) = a ++ lhs ++ b ∧
      (∃ x y, a = x ++ "Info.plist" ++ y) ∧
      (∃ x y, a = x ++ "CFBundleShortVersionString" ++ y)) := by
  refine ⟨?_, ?_, ?_, ?_⟩
  · unfold parseLines
    rw [runLines_first_bad pre t rest ⟨[], "", ""⟩ hpre ht]
  · intro h
    unfold errFor
    rw [h]
  · intro lhs rhs h
    unfold errFor
    rw [h]
  · intro lhs
    refine ⟨"unexpected installed packages line tag. expected: [\"Info.plist\", \"CFBundleShortVersionString\"], actual: \"",
      "\"", rfl, ?_, ?_⟩
    · exact ⟨"unexpected installed packages line tag. expected: [\"",
        "\", \"CFBundleShortVersionString\"], actual: \"", by decide⟩
    · exact ⟨"unexpected installed packages line tag. expected: [\"Info.plist\", \"",
        "\"], actual: \"", by decide⟩

/-- Witness for C4: after one well-formed block line, a colonless line
aborts the whole parse with the unexpected-line-format error. -/
theorem parseLines_rejects_bad_line_witness :
    parseLines ["Info.plist: /Applications/A.app/Contents/Info.plist", "oops no colon"] =
      .error (PkgError.unexpectedLineFormat "oops no colon") := by
  have h := (parseLines_rejects_bad_line
    ["Info.plist: /Applications/A.app/Contents/Info.plist"] "oops no colon" []
    (by decide) (by decide)).1
  rw [show errFor "oops no colon" = PkgError.unexpectedLineFormat "oops no colon"
    from by decide] at h
  exact h

/-- C5: inventory keys are always unique, and when two blocks derive the
same name the parse succeeds with exactly one entry under that name,
holding the later block's (normalized) version. -/
theorem parseLines_last_write_wins :
    (∀ ls pkgs sp, parseLines ls = .ok (pkgs, sp) → (pkgs.map Prod.fst).Nodup) ∧
    (∀ p1 v1 p2 v2, trimSpace p1 ≠ "" → trimSpace p2 ≠ "" →
      deriveName (trimSpace p1) = deriveName (trimSpace p2) →
      parseLines ["Info.plist:" ++ p1, "CFBundleShortVersionString:" ++ v1, "",
        "Info.plist:" ++ p2, "CFBundleShortVersionString:" ++ v2] =
        .ok ([(deriveName (trimSpace p2), normVer v2)], [])) := by
  constructor
  · intro ls pkgs sp h
    unfold parseLines at h
    cases hr : runLines ⟨[], "", ""⟩ ls with
    | error e => rw [hr] at h; cases h
    | ok st =>
      rw [hr] at h
      cases h
      exact finalizeInto_keys_nodup _ _ _ (runLines_keys_nodup ls _ st hr (by simp))
  · intro p1 v1 p2 v2 hp1 hp2 heq
    have e1 := goStep_info ⟨[], "", ""⟩ p1
    have e2 := goStep_cfb ⟨[], trimSpace p1, ""⟩ v1
    have e3 := goStep_blank ⟨[], trimSpace p1, normVer v1⟩
    have e4 := goStep_info ⟨[(deriveName (trimSpace p2), normVer v1)], "", ""⟩ p2
    have e5 := goStep_cfb ⟨[(deriveName (trimSpace p2), normVer v1)], trimSpace p2, ""⟩ v2
    simp [parseLines, runLines, e1, e2, e3, e4, e5, finalizeInto, hp1, hp2, insertPkg, heq]

/-- Witness for C5: two blocks both deriving the name "A" leave a single
entry holding the second block's version "2.0". -/
theorem parseLines_last_write_wins_witness :
    parseLines ["Info.plist:" ++ " /Applications/A.app/Contents/Info.plist",
      "CFBundleShortVersionString:" ++ " 1.0", "",
      "Info.plist:" ++ " /System/Applications/A.app/Contents/Info.plist",
      "CFBundleShortVersionString:" ++ " 2.0"] = .ok ([("A", "2.0")], []) := by
  have h := (parseLines_last_write_wins).2
    " /Applications/A.app/Contents/Info.plist" " 1.0"
    " /System/Applications/A.app/Contents/Info.plist" " 2.0"
    (by decide) (by decide) (by decide)
  rw [show deriveName (trimSpace " /System/Applications/A.app/Contents/Info.plist") = "A"
    from by decide, show normVer " 2.0" = "2.0" from by decide] at h
  exact h

/-- C8: end-of-input finalizes a pending record exactly as a trailing
blank line would (the two inputs parse identically), and a record
consisting of only a path-label line is finalized with an empty-string
version under its derived name. -/
theorem parseLines_eof_like_blank :
    (∀ ls, parseLines (ls ++ [""]) = parseLines ls) ∧
    (∀ p, trimSpace p ≠ "" →
      parseLines ["Info.plist:" ++ p] = .ok ([(deriveName (trimSpace p), "")], [])) := by
  constructor
  · intro ls
    unfold parseLines
    rw [runLines_append]
    cases hr : runLines ⟨[], "", ""⟩ ls with
    | error e => rfl
    | ok st => simp [runLines, goStep_blank, finalizeInto]
  · intro p hp
    have e1 := goStep_info ⟨[], "", ""⟩ p
    simp [parseLines, runLines, e1, finalizeInto, hp, insertPkg]

/-- Witness for C8: a single path-only line (no trailing blank line)
yields the record ("A", ""). -/
theorem parseLines_eof_like_blank_witness :
    parseLines ["Info.plist:" ++ " /Applications/A.app/Contents/Info.plist"] =
      .ok ([("A", "")], []) := by
  have h := (parseLines_eof_like_blank).2
    " /Applications/A.app/Contents/Info.plist" (by decide)
  rw [show deriveName (trimSpace " /Applications/A.app/Contents/Info.plist") = "A"
    from by decide] at h
  exact h

/-- C9: a line is split at its first colon only — the value part may
itself contain further colons, which reach the stored (trimmed,
sentinel-normalized) value unchanged instead of causing an error. -/
theorem cut_splits_at_first_colon_only :
    (∀ l r, ':' ∉ l.data → cut (l ++ ":" ++ r) = some (l, r)) ∧
    (∀ (st : InvState) r, goStep st ("Info.plist:" ++ r) =
      .ok ⟨st.pkgs, trimSpace r, st.v⟩) ∧
    (∀ (st : InvState) r, goStep st ("CFBundleShortVersionString:" ++ r) =
      .ok ⟨st.pkgs, st.p, normVer r⟩) :=
  ⟨cut_append, goStep_info, goStep_cfb⟩

/-- Witness for C9: a value containing two further colons is kept whole by
the first-colon split. -/
theorem cut_splits_at_first_colon_only_witness :
    cut ("CFBundleShortVersionString" ++ ":" ++ " 1.2.3: extra: colons") =
      some ("CFBundleShortVersionString", " 1.2.3: extra: colons") :=
  (cut_splits_at_first_colon_only).1 "CFBundleShortVersionString"
    " 1.2.3: extra: colons" (by decide)

/-- C10: an input all of whose lines are blank — which includes the empty
input, whose line list is empty — parses to the empty inventory with no
error, and the secondary source-package result is empty. -/
theorem parseInstalledPackages_blank_input (s : String)
    (h : ∀ l ∈ splitLines s, l = "") :
    parseInstalledPackages s = .ok ([], []) := by
  have key : ∀ ls : List String, (∀ l ∈ ls, l = "") →
      runLines ⟨[], "", ""⟩ ls = .ok ⟨[], "", ""⟩ := by
    intro ls
    induction ls with
    | nil => intro _; rfl
    | cons t ts ih =>
      intro hall
      have ht : t = "" := hall t (List.mem_cons_self t ts)
      subst ht
      simp only [runLines, goStep_blank, finalizeInto, if_pos rfl]
      exact ih (fun l hl => hall l (List.mem_cons_of_mem _ hl))
  unfold parseInstalledPackages parseLines
  rw [key (splitLines s) h]
  simp [finalizeInto]

/-- Witness for C10: two blank lines parse to the empty inventory. -/
theorem parseInstalledPackages_blank_input_witness :
    parseInstalledPackages "\n\n" = .ok ([], []) :=
  parseInstalledPackages_blank_input "\n\n" (by decide)

end MacOSScanner
